import Mathlib

/-!
Verification of the resilient collection engine of the GitLab user-report
generator (`src/main.py`) against its natural-language specification.

The Python source is shallowly embedded below:

* `is_non_billable` embeds the billing-classifier rule chain of
  `get_users_with_batch_processing` (main.py lines 739-766).
* `retry_transient_errors` embeds the retry decorator (main.py lines 26-61);
  the unit of work is modelled as a sequence of attempt outcomes, and a
  sleep of `s` seconds is recorded as the value `s` in a delay trace.
* The paged, checkpointed collectors `get_all_projects_with_checkpoints` /
  `get_all_groups_with_checkpoints` (they differ only in the checkpoint
  interval `K`) are embedded as `crawlLoop` / `crawlRun`, with the
  filesystem reduced to the one normal checkpoint slot and the one
  emergency checkpoint slot those functions touch.
* The tiered membership resolver `get_user_roles_optimized` /
  `get_user_roles_fallback` (main.py lines 91-299) is embedded over an
  abstract environment `Env` that supplies the remote instance's data.
-/

/-! ## Billing classifier (main.py lines 739-766) -/

/-- An Entity(User) record, restricted to the attributes the classifier reads. -/
structure User where
  state : String
  external : Bool
  username : String
deriving DecidableEq

/-- Substring containment on character lists (Python's `in` on strings). -/
def strContains : List Char → List Char → Bool
  | hay, needle =>
    if needle.isPrefixOf hay then true
    else
      match hay with
      | [] => false
      | _ :: t => strContains t needle

/-- ASCII lowercasing of one character (Python's `str.lower` on the ASCII
usernames the classifier inspects). -/
def asciiLower (c : Char) : Char :=
  if 'A' ≤ c && c ≤ 'Z' then Char.ofNat (c.toNat + 32) else c

/-- Lowercasing of a character list. -/
def lowerChars (s : List Char) : List Char := s.map asciiLower

/-- Rule 4 of the classifier: `username == 'ghost' or 'bot' in username.lower()
or username.startswith('support-')`. -/
def reservedName (un : String) : Bool :=
  un = "ghost" || strContains (lowerChars un.toList) "bot".toList ||
    "support-".toList.isPrefixOf un.toList

/-- The ordered non-billable rule chain of `get_users_with_batch_processing`
(first match wins, `elif` chain in the source). -/
def is_non_billable (u : User) : Bool :=
  if u.state ≠ "active" then true
  else if u.state = "blocked_pending_approval" then true
  else if u.external then true
  else if reservedName u.username then true
  else false

/-! ## Retry policy (main.py lines 26-61) -/

/-- Outcome of one invocation of the wrapped unit of work: success, an error
in the transient set (`GitlabHttpError`, `GitlabConnectionError`, `Timeout`),
or any other (fatal) error. -/
inductive Outcome (α : Type) where
  | ok (a : α)
  | transient (e : String)
  | fatal (e : String)
deriving DecidableEq

/-- Observable result of the wrapped call. `success` carries the trace of
sleeps performed between attempts; `exhausted` is the re-raise of the last
transient error after `max_retries` is exceeded (the `RetryExhausted`
failure, carrying its cause); `fatalErr` is the immediate propagation of a
non-transient error. -/
inductive RetryResult (α : Type) where
  | success (a : α) (delays : List Nat)
  | exhausted (cause : String)
  | fatalErr (e : String)
deriving DecidableEq

/-- The retry loop of the decorator: `fuel` is the number of retries still
allowed (`max_retries - retries`), `k` the index of the attempt about to run,
`curDelay` the current backoff delay, `delays` the sleeps performed so far. -/
def retryAux (attempts : Nat → Outcome α) (fuel k curDelay : Nat)
    (delays : List Nat) : RetryResult α :=
  match attempts k with
  | .ok a => .success a delays
  | .fatal e => .fatalErr e
  | .transient e =>
    match fuel with
    | 0 => .exhausted e
    | fuel' + 1 => retryAux attempts fuel' (k + 1) (curDelay * 2) (delays ++ [curDelay])

/-- The decorator `retry_transient_errors(max_retries, delay)` applied to a
unit of work. -/
def retry_transient_errors (max_retries delay : Nat) (attempts : Nat → Outcome α) :
    RetryResult α :=
  retryAux attempts max_retries 0 delay []

lemma retryAux_transient_unroll (attempts : Nat → Outcome α) (es : Nat → String) :
    ∀ j fuel k cur delays, j ≤ fuel →
    (∀ i, i < j → attempts (k + i) = .transient (es (k + i))) →
    retryAux attempts fuel k cur delays =
      retryAux attempts (fuel - j) (k + j) (cur * 2 ^ j)
        (delays ++ (List.range j).map (fun i => cur * 2 ^ i)) := by
  intro j
  induction j with
  | zero => intro fuel k cur delays _ _; simp
  | succ j ih =>
    intro fuel k cur delays hj htr
    obtain ⟨fuel', rfl⟩ : ∃ f, fuel = f + 1 := ⟨fuel - 1, by omega⟩
    have h0 : attempts k = .transient (es k) := by simpa using htr 0 (by omega)
    rw [retryAux, h0]
    have step := ih fuel' (k + 1) (cur * 2) (delays ++ [cur]) (by omega)
      (fun i hi => by
        have := htr (i + 1) (by omega)
        simpa [Nat.add_assoc, Nat.add_comm 1 i] using this)
    simp only [step]
    have harith : fuel' + 1 - (j + 1) = fuel' - j := by omega
    have hk : k + 1 + j = k + (j + 1) := by omega
    have hpow : cur * 2 * 2 ^ j = cur * 2 ^ (j + 1) := by ring
    have hdel : (delays ++ [cur]) ++ (List.range j).map (fun i => cur * 2 * 2 ^ i) =
        delays ++ (List.range (j + 1)).map (fun i => cur * 2 ^ i) := by
      rw [List.append_assoc, List.range_succ_eq_map, List.map_cons, List.map_map]
      have hmap : (List.range j).map ((fun i => cur * 2 ^ i) ∘ Nat.succ) =
          (List.range j).map (fun i => cur * 2 * 2 ^ i) :=
        List.map_congr_left (fun a _ => by simp [Function.comp, pow_succ]; ring)
      rw [hmap]
      simp
    rw [harith, hk, hpow, hdel]

/-- C2: the retry wrapper retries transient errors with pure exponential
backoff `d, 2d, 4d, …`; a non-transient error propagates immediately; after
the initial attempt and `max_retries` retries have all failed transiently,
the last transient error propagates as the exhaustion failure carrying its
cause.  In particular (see the witness) with `max_retries = 3, delay = 1`,
three transient failures followed by a success yield the success with delay
trace `[1, 2, 4]`, and a fourth consecutive transient failure exhausts. -/
theorem retry_policy_correct {α : Type} (attempts : Nat → Outcome α)
    (es : Nat → String) (maxR d : Nat) :
    (∀ j e, j ≤ maxR → (∀ i, i < j → attempts i = .transient (es i)) →
      attempts j = .fatal e →
      retry_transient_errors maxR d attempts = .fatalErr e) ∧
    (∀ j a, j ≤ maxR → (∀ i, i < j → attempts i = .transient (es i)) →
      attempts j = .ok a →
      retry_transient_errors maxR d attempts =
        .success a ((List.range j).map (fun i => d * 2 ^ i))) ∧
    ((∀ i, i ≤ maxR → attempts i = .transient (es i)) →
      retry_transient_errors maxR d attempts = .exhausted (es maxR)) := by
  refine ⟨?_, ?_, ?_⟩
  · intro j e hj htr hfat
    unfold retry_transient_errors
    rw [retryAux_transient_unroll attempts es j maxR 0 d [] hj
      (fun i hi => by simpa using htr i hi)]
    rw [retryAux]
    simp [hfat]
  · intro j a hj htr hok
    unfold retry_transient_errors
    rw [retryAux_transient_unroll attempts es j maxR 0 d [] hj
      (fun i hi => by simpa using htr i hi)]
    rw [retryAux]
    simp [hok]
  · intro htr
    unfold retry_transient_errors
    rw [retryAux_transient_unroll attempts es maxR maxR 0 d [] (le_refl _)
      (fun i hi => by simpa using htr i (by omega))]
    rw [retryAux]
    have := htr maxR (le_refl _)
    simp [this]

/-- Witness for `retry_policy_correct`: the spec's concrete schedule with
`max_retries = 3, delay = 1`. -/
theorem retry_policy_correct_witness :
    retry_transient_errors 3 1
        (fun k => if k < 3 then Outcome.transient "timeout" else Outcome.ok (42 : Nat)) =
      .success 42 [1, 2, 4] ∧
    retry_transient_errors 3 1 (fun _ => (Outcome.transient "timeout" : Outcome Nat)) =
      .exhausted "timeout" := by
  constructor
  · have h := (retry_policy_correct
      (fun k => if k < 3 then Outcome.transient "timeout" else Outcome.ok (42 : Nat))
      (fun _ => "timeout") 3 1).2.1 3 42 (by omega)
      (fun i hi => by simp [hi]) (by simp)
    simpa using h
  · have h := (retry_policy_correct (fun _ => (Outcome.transient "timeout" : Outcome Nat))
      (fun _ => "timeout") 3 1).2.2 (fun i _ => rfl)
    simpa using h

/-- C3: the billing classifier is a total function into `{billable,
non-billable}` evaluating the ordered rules first-match-wins: a non-active
state, the blocked-pending-approval state, the external flag, and the
reserved/bot/service-account username patterns are each non-billable, and a
record matching none of the rules is billable.  The spec's three concrete
examples are included, the `support-42` one for every state and external
flag. -/
theorem billing_classifier_correct :
    (∀ u : User, is_non_billable u = true ∨ is_non_billable u = false) ∧
    (∀ u : User, u.state ≠ "active" → is_non_billable u = true) ∧
    (∀ u : User, u.external = true → is_non_billable u = true) ∧
    (∀ u : User, u.state = "active" → u.external = false →
      reservedName u.username = true → is_non_billable u = true) ∧
    (∀ u : User, u.state = "active" → u.external = false →
      reservedName u.username = false → is_non_billable u = false) ∧
    (∀ ext un, is_non_billable ⟨"blocked", ext, un⟩ = true) ∧
    is_non_billable ⟨"active", false, "alice"⟩ = false ∧
    (∀ st ext, is_non_billable ⟨st, ext, "support-42"⟩ = true) := by
  refine ⟨?_, ?_, ?_, ?_, ?_, ?_, ?_, ?_⟩
  · intro u; rcases h : is_non_billable u with _ | _ <;> simp
  · intro u h; simp [is_non_billable, h]
  · intro u h
    by_cases hs : u.state = "active" <;> simp [is_non_billable, hs, h]
  · intro u hs he hr; simp [is_non_billable, hs, he, hr]
  · intro u hs he hr; simp [is_non_billable, hs, he, hr]
  · intro ext un; simp [is_non_billable]
  · decide
  · intro st ext
    by_cases hs : st = "active"
    · subst hs
      cases ext
      · decide
      · decide
    · simp [is_non_billable, hs]

/-- Witness for `billing_classifier_correct`: rule hypotheses discharged on
the spec's concrete records. -/
theorem billing_classifier_correct_witness :
    is_non_billable ⟨"blocked", false, "alice"⟩ = true ∧
    is_non_billable ⟨"active", true, "alice"⟩ = true ∧
    is_non_billable ⟨"active", false, "tenderbot"⟩ = true ∧
    is_non_billable ⟨"active", false, "alice"⟩ = false := by
  refine ⟨?_, ?_, ?_, ?_⟩
  · exact (billing_classifier_correct).2.1 ⟨"blocked", false, "alice"⟩ (by decide)
  · exact (billing_classifier_correct).2.2.1 ⟨"active", true, "alice"⟩ (by decide)
  · exact (billing_classifier_correct).2.2.2.1 ⟨"active", false, "tenderbot"⟩
      (by decide) (by decide) (by decide)
  · exact (billing_classifier_correct).2.2.2.2.1 ⟨"active", false, "alice"⟩
      (by decide) (by decide) (by decide)

/-! ## Tiered membership resolver (main.py lines 91-299, 381-406) -/

/-- `get_role_name` (main.py lines 381-406). -/
def get_role_name (access_level : Nat) : String :=
  if access_level = 10 then "Guest"
  else if access_level = 20 then "Reporter"
  else if access_level = 30 then "Developer"
  else if access_level = 40 then "Maintainer"
  else if access_level = 50 then "Owner"
  else "Unknown (" ++ toString access_level ++ ")"

/-- The `roles` dictionary built by the resolver: membership lists as
`(resource id, access_level)` pairs plus the incrementally maintained
maximum. -/
structure Roles where
  project_roles : List (Nat × Nat)
  group_roles : List (Nat × Nat)
  max_role_level : Nat
  max_role_name : String
deriving DecidableEq

/-- The empty `roles` dictionary every resolver entry point starts from. -/
def emptyRoles : Roles := ⟨[], [], 0, ""⟩

/-- Result of probing one resource's member list for the user
(`resource.members.get(user_id)`): a membership with an access level, the
`GitlabGetError` meaning "not a member" (an expected non-error), or any
other lookup error with its message. -/
inductive Probe where
  | member (level : Nat)
  | notMember
  | err (msg : String)
deriving DecidableEq

/-- The remote instance as seen by the resolver for one user. -/
structure Env where
  userExists : Bool
  userProjects : Option (List (Nat × Nat))
  groups : List Nat
  projectsByActivity : List Nat
  groupProbe : Nat → Probe
  projectProbe : Nat → Probe

/-- The incremental maximum update
(`if access_level > roles['max_role_level']: ...`). -/
def updateMax (r : Roles) (lvl : Nat) : Roles :=
  if r.max_role_level < lvl then
    { r with max_role_level := lvl, max_role_name := get_role_name lvl }
  else r

/-- The body of a probing loop once the pagination has been flattened: a
found membership updates the maximum and is appended to the group or
project list, `notMember` is skipped silently, any other error appends a
`(resource id, message)` warning and skips only that resource
(main.py lines 181-202 and 264-285). -/
def foldProbe (probe : Nat → Probe) (isGroup : Bool) :
    List Nat → Roles → List (Nat × String) → Roles × List (Nat × String)
  | [], r, w => (r, w)
  | id :: rest, r, w =>
    match probe id with
    | .member lvl =>
      let r' := updateMax r lvl
      let r'' := if isGroup then { r' with group_roles := r'.group_roles ++ [(id, lvl)] }
                 else { r' with project_roles := r'.project_roles ++ [(id, lvl)] }
      foldProbe probe isGroup rest r'' w
    | .notMember => foldProbe probe isGroup rest r w
    | .err m => foldProbe probe isGroup rest r (w ++ [(id, m)])

/-- The capped probing loop as written in the source: the counter is
incremented for each enumerated resource and checked against the cap
*before* the probe, so the resource that reaches the cap is enumerated but
not probed.  The page-by-page enumeration (`per_page = 20`, stop on the
first empty page) of a static resource list visits exactly the list in
order, so pagination is flattened away. -/
def probeLoop (probe : Nat → Probe) (isGroup : Bool) :
    List Nat → Nat → Nat → Roles → List (Nat × String) → Roles × List (Nat × String)
  | [], _, _, r, w => (r, w)
  | id :: rest, checked, cap, r, w =>
    if cap ≤ checked + 1 then (r, w)
    else
      match probe id with
      | .member lvl =>
        let r' := updateMax r lvl
        let r'' := if isGroup then { r' with group_roles := r'.group_roles ++ [(id, lvl)] }
                   else { r' with project_roles := r'.project_roles ++ [(id, lvl)] }
        probeLoop probe isGroup rest (checked + 1) cap r'' w
      | .notMember => probeLoop probe isGroup rest (checked + 1) cap r w
      | .err m => probeLoop probe isGroup rest (checked + 1) cap r (w ++ [(id, m)])

/-- Method 2 of the direct tier: each membership from the user's own project
list (`user.projects.list(all=True)`) updates the maximum and is appended. -/
def directProjects (pms : List (Nat × Nat)) (r : Roles) : Roles :=
  pms.foldl (fun r pm =>
    let r' := updateMax r pm.2
    { r' with project_roles := r'.project_roles ++ [pm] }) r

/-- `get_user_roles_fallback` (main.py lines 222-299): probe only a sample of
projects, ordered by `last_activity_at` descending, capped at 100
enumerated; groups are never touched by this tier. -/
def get_user_roles_fallback (env : Env) : Roles × List (Nat × String) :=
  probeLoop env.projectProbe false env.projectsByActivity 0 100 emptyRoles []

/-- `get_user_roles_optimized` (main.py lines 91-218): skip tier, user
lookup, direct project-membership listing (falling back to
`get_user_roles_fallback` when that listing is unavailable), then group
probing capped at 500 enumerated groups. -/
def get_user_roles_optimized (env : Env) (skip_roles : Bool) :
    Roles × List (Nat × String) :=
  if skip_roles then (emptyRoles, [])
  else if env.userExists = false then (emptyRoles, [])
  else
    match env.userProjects with
    | none => get_user_roles_fallback env
    | some pms =>
      let r1 := directProjects pms emptyRoles
      probeLoop env.groupProbe true env.groups 0 500 r1 []

/-- Memberships found by a probe function on a resource list. -/
def foundIn (probe : Nat → Probe) (ids : List Nat) : List (Nat × Nat) :=
  ids.filterMap (fun i => match probe i with | .member l => some (i, l) | _ => none)

/-- Warnings logged by a probe function on a resource list. -/
def warnsIn (probe : Nat → Probe) (ids : List Nat) : List (Nat × String) :=
  ids.filterMap (fun i => match probe i with | .err m => some (i, m) | _ => none)

/-- Maximum of a list of access levels, 0 when empty. -/
def listMax (ls : List Nat) : Nat := ls.foldr max 0

/-- Access levels of all accumulated memberships of a `Roles` value. -/
def rolesLevels (r : Roles) : List Nat :=
  (r.project_roles ++ r.group_roles).map (fun m => m.2)

/-- The invariant the spec states for RoleProfile: the maximum equals the
maximum access level over the accumulated memberships (0 for none), and the
role name is the name of that level when positive, empty otherwise. -/
def RolesInv (r : Roles) : Prop :=
  r.max_role_level = listMax (rolesLevels r) ∧
  r.max_role_name = (if r.max_role_level = 0 then "" else get_role_name r.max_role_level)

/-- The aggregation core in isolation: fold the incremental maximum update
over a list of discovered access levels and read off the maximum role. -/
def discoveredMax (levels : List Nat) : Nat × String :=
  ((levels.foldl (fun s l => updateMax s l) emptyRoles).max_role_level,
    (levels.foldl (fun s l => updateMax s l) emptyRoles).max_role_name)

lemma updateMax_level (r : Roles) (l : Nat) :
    (updateMax r l).max_role_level = max r.max_role_level l := by
  by_cases h : r.max_role_level < l
  · simp [updateMax, h, max_eq_right h.le]
  · simp [updateMax, h, max_eq_left (Nat.le_of_not_lt h)]

lemma updateMax_name (r : Roles) (l : Nat) :
    (updateMax r l).max_role_name =
      if r.max_role_level < l then get_role_name l else r.max_role_name := by
  by_cases h : r.max_role_level < l <;> simp [updateMax, h]

lemma updateMax_project (r : Roles) (l : Nat) :
    (updateMax r l).project_roles = r.project_roles := by
  by_cases h : r.max_role_level < l <;> simp [updateMax, h]

lemma updateMax_group (r : Roles) (l : Nat) :
    (updateMax r l).group_roles = r.group_roles := by
  by_cases h : r.max_role_level < l <;> simp [updateMax, h]

lemma listMax_cons (x : Nat) (l : List Nat) :
    listMax (x :: l) = max x (listMax l) := rfl

lemma listMax_append (a b : List Nat) :
    listMax (a ++ b) = max (listMax a) (listMax b) := by
  induction a with
  | nil => simp [listMax]
  | cons x xs ih => simp only [List.cons_append, listMax_cons, ih, max_assoc]

lemma listMax_perm {l1 l2 : List Nat} (h : l1.Perm l2) : listMax l1 = listMax l2 := by
  induction h with
  | nil => rfl
  | cons x _ ih => simp [listMax_cons, ih]
  | swap x y l =>
    simp only [listMax_cons, ← max_assoc, max_comm y x]
  | trans _ _ ih1 ih2 => exact ih1.trans ih2

lemma maxName_step (m x L : Nat) (nm : String) :
    (if max m x < L then get_role_name L
      else if m < x then get_role_name x else nm) =
    (if m < max x L then get_role_name (max x L) else nm) := by
  by_cases h1 : max m x < L
  · have e1 : max x L = L := by omega
    rw [if_pos h1, e1, if_pos (by omega : m < L)]
  · by_cases h2 : m < x
    · have e1 : max x L = x := by omega
      rw [if_neg h1, if_pos h2, e1, if_pos h2]
    · have e1 : ¬m < max x L := by omega
      rw [if_neg h1, if_neg h2, if_neg e1]

lemma foldl_updateMax_level (levels : List Nat) : ∀ r : Roles,
    (levels.foldl (fun s l => updateMax s l) r).max_role_level =
      max r.max_role_level (listMax levels) := by
  induction levels with
  | nil => intro r; simp [listMax]
  | cons x xs ih =>
    intro r
    simp only [List.foldl_cons, ih, updateMax_level, listMax_cons, max_assoc]

lemma foldl_updateMax_name (levels : List Nat) : ∀ r : Roles,
    (levels.foldl (fun s l => updateMax s l) r).max_role_name =
      if r.max_role_level < listMax levels then get_role_name (listMax levels)
      else r.max_role_name := by
  induction levels with
  | nil => intro r; simp [listMax]
  | cons x xs ih =>
    intro r
    simp only [List.foldl_cons, ih, updateMax_level, updateMax_name, listMax_cons]
    exact maxName_step r.max_role_level x (listMax xs) r.max_role_name

lemma discoveredMax_eq (levels : List Nat) :
    discoveredMax levels =
      (listMax levels,
        if 0 < listMax levels then get_role_name (listMax levels) else "") := by
  unfold discoveredMax
  rw [foldl_updateMax_level, foldl_updateMax_name]
  have e1 : max emptyRoles.max_role_level (listMax levels) = listMax levels := by
    show max 0 _ = _
    omega
  rw [e1]
  by_cases h : 0 < listMax levels
  · simp [emptyRoles, h]
  · simp [emptyRoles, h, Nat.eq_zero_of_not_pos h]

lemma directProjects_project (pms : List (Nat × Nat)) : ∀ r : Roles,
    (directProjects pms r).project_roles = r.project_roles ++ pms := by
  induction pms with
  | nil => intro r; simp [directProjects]
  | cons pm rest ih =>
    intro r
    simp only [directProjects, List.foldl_cons] at *
    rw [ih]
    simp [updateMax_project]

lemma directProjects_group (pms : List (Nat × Nat)) : ∀ r : Roles,
    (directProjects pms r).group_roles = r.group_roles := by
  induction pms with
  | nil => intro r; simp [directProjects]
  | cons pm rest ih =>
    intro r
    simp only [directProjects, List.foldl_cons] at *
    rw [ih]
    simp [updateMax_group]

lemma directProjects_level (pms : List (Nat × Nat)) : ∀ r : Roles,
    (directProjects pms r).max_role_level =
      max r.max_role_level (listMax (pms.map (fun m => m.2))) := by
  induction pms with
  | nil => intro r; simp [directProjects, listMax]
  | cons pm rest ih =>
    intro r
    simp only [directProjects, List.foldl_cons] at *
    rw [ih]
    show max (updateMax r pm.2).max_role_level _ = _
    simp only [updateMax_level, List.map_cons, listMax_cons, max_assoc]

lemma directProjects_name (pms : List (Nat × Nat)) : ∀ r : Roles,
    (directProjects pms r).max_role_name =
      if r.max_role_level < listMax (pms.map (fun m => m.2)) then
        get_role_name (listMax (pms.map (fun m => m.2)))
      else r.max_role_name := by
  induction pms with
  | nil => intro r; simp [directProjects, listMax]
  | cons pm rest ih =>
    intro r
    simp only [directProjects, List.foldl_cons] at *
    rw [ih]
    show (if (updateMax r pm.2).max_role_level < _ then _ else (updateMax r pm.2).max_role_name) = _
    simp only [updateMax_level, updateMax_name, List.map_cons, listMax_cons]
    exact maxName_step r.max_role_level pm.2 (listMax (rest.map (fun m => m.2))) r.max_role_name

lemma foundIn_nil (probe : Nat → Probe) : foundIn probe [] = [] := rfl

lemma warnsIn_nil (probe : Nat → Probe) : warnsIn probe [] = [] := rfl

lemma foundIn_cons_member {probe : Nat → Probe} {id lvl} (hp : probe id = .member lvl)
    (rest : List Nat) : foundIn probe (id :: rest) = (id, lvl) :: foundIn probe rest := by
  simp [foundIn, List.filterMap_cons, hp]

lemma foundIn_cons_notMember {probe : Nat → Probe} {id} (hp : probe id = .notMember)
    (rest : List Nat) : foundIn probe (id :: rest) = foundIn probe rest := by
  simp [foundIn, List.filterMap_cons, hp]

lemma foundIn_cons_err {probe : Nat → Probe} {id m} (hp : probe id = .err m)
    (rest : List Nat) : foundIn probe (id :: rest) = foundIn probe rest := by
  simp [foundIn, List.filterMap_cons, hp]

lemma warnsIn_cons_member {probe : Nat → Probe} {id lvl} (hp : probe id = .member lvl)
    (rest : List Nat) : warnsIn probe (id :: rest) = warnsIn probe rest := by
  simp [warnsIn, List.filterMap_cons, hp]

lemma warnsIn_cons_notMember {probe : Nat → Probe} {id} (hp : probe id = .notMember)
    (rest : List Nat) : warnsIn probe (id :: rest) = warnsIn probe rest := by
  simp [warnsIn, List.filterMap_cons, hp]

lemma warnsIn_cons_err {probe : Nat → Probe} {id m} (hp : probe id = .err m)
    (rest : List Nat) : warnsIn probe (id :: rest) = (id, m) :: warnsIn probe rest := by
  simp [warnsIn, List.filterMap_cons, hp]

lemma foldProbe_warns (probe : Nat → Probe) (g : Bool) (ids : List Nat) :
    ∀ r w, (foldProbe probe g ids r w).2 = w ++ warnsIn probe ids := by
  induction ids with
  | nil => intro r w; simp [foldProbe, warnsIn_nil]
  | cons id rest ih =>
    intro r w
    cases hp : probe id
    · simp only [foldProbe, hp, ih, warnsIn_cons_member hp]
    · simp only [foldProbe, hp, ih, warnsIn_cons_notMember hp]
    · simp only [foldProbe, hp, ih, warnsIn_cons_err hp]
      simp

lemma foldProbe_group_roles (probe : Nat → Probe) (g : Bool) (ids : List Nat) :
    ∀ r w, (foldProbe probe g ids r w).1.group_roles =
      r.group_roles ++ (if g then foundIn probe ids else []) := by
  induction ids with
  | nil => intro r w; cases g <;> simp [foldProbe, foundIn_nil]
  | cons id rest ih =>
    intro r w
    cases hp : probe id
    · simp only [foldProbe, hp, ih, foundIn_cons_member hp]
      cases g <;> simp [updateMax_group]
    · simp only [foldProbe, hp, ih, foundIn_cons_notMember hp]
    · simp only [foldProbe, hp, ih, foundIn_cons_err hp]

lemma foldProbe_project_roles (probe : Nat → Probe) (g : Bool) (ids : List Nat) :
    ∀ r w, (foldProbe probe g ids r w).1.project_roles =
      r.project_roles ++ (if g then [] else foundIn probe ids) := by
  induction ids with
  | nil => intro r w; cases g <;> simp [foldProbe, foundIn_nil]
  | cons id rest ih =>
    intro r w
    cases hp : probe id
    · simp only [foldProbe, hp, ih, foundIn_cons_member hp]
      cases g <;> simp [updateMax_project]
    · simp only [foldProbe, hp, ih, foundIn_cons_notMember hp]
    · simp only [foldProbe, hp, ih, foundIn_cons_err hp]

lemma foldProbe_level (probe : Nat → Probe) (g : Bool) (ids : List Nat) :
    ∀ r w, (foldProbe probe g ids r w).1.max_role_level =
      max r.max_role_level (listMax ((foundIn probe ids).map (fun m => m.2))) := by
  induction ids with
  | nil => intro r w; simp [foldProbe, foundIn_nil, listMax]
  | cons id rest ih =>
    intro r w
    cases hp : probe id
    · simp only [foldProbe, hp, ih, foundIn_cons_member hp]
      cases g <;>
        simp [updateMax_level, List.map_cons, listMax_cons, max_assoc]
    · simp only [foldProbe, hp, ih, foundIn_cons_notMember hp]
    · simp only [foldProbe, hp, ih, foundIn_cons_err hp]

lemma foldProbe_name (probe : Nat → Probe) (g : Bool) (ids : List Nat) :
    ∀ r w, (foldProbe probe g ids r w).1.max_role_name =
      if r.max_role_level < listMax ((foundIn probe ids).map (fun m => m.2)) then
        get_role_name (listMax ((foundIn probe ids).map (fun m => m.2)))
      else r.max_role_name := by
  induction ids with
  | nil => intro r w; simp [foldProbe, foundIn_nil, listMax]
  | cons id rest ih =>
    intro r w
    cases hp : probe id
    case member lvl =>
      have hlists : ∀ r' : Roles,
          (if g then { r' with group_roles := r'.group_roles ++ [(id, lvl)] }
           else { r' with project_roles := r'.project_roles ++ [(id, lvl)] }).max_role_level
            = r'.max_role_level ∧
          (if g then { r' with group_roles := r'.group_roles ++ [(id, lvl)] }
           else { r' with project_roles := r'.project_roles ++ [(id, lvl)] }).max_role_name
            = r'.max_role_name := by
        intro r'; cases g <;> simp
      simp only [foldProbe, hp, ih, foundIn_cons_member hp, List.map_cons, listMax_cons]
      rw [(hlists _).1, (hlists _).2, updateMax_level, updateMax_name]
      exact maxName_step r.max_role_level lvl
        (listMax ((foundIn probe rest).map (fun m => m.2))) r.max_role_name
    · simp only [foldProbe, hp, ih, foundIn_cons_notMember hp]
    · simp only [foldProbe, hp, ih, foundIn_cons_err hp]

lemma probeLoop_take (probe : Nat → Probe) (g : Bool) (ids : List Nat) :
    ∀ checked cap r w, checked < cap →
      probeLoop probe g ids checked cap r w =
        foldProbe probe g (ids.take (cap - checked - 1)) r w := by
  induction ids with
  | nil => intro checked cap r w _; simp [probeLoop, foldProbe]
  | cons id rest ih =>
    intro checked cap r w hck
    by_cases hstop : cap ≤ checked + 1
    · have h0 : cap - checked - 1 = 0 := by omega
      rw [h0]
      simp [probeLoop, hstop, foldProbe]
    · have hc : cap - checked - 1 = (cap - (checked + 1) - 1) + 1 := by omega
      rw [hc, List.take_succ_cons]
      cases hp : probe id
      · simp only [probeLoop, hstop, if_false, hp, foldProbe]
        exact ih (checked + 1) cap _ w (by omega)
      · simp only [probeLoop, hstop, if_false, hp, foldProbe]
        exact ih (checked + 1) cap r w (by omega)
      · simp only [probeLoop, hstop, if_false, hp, foldProbe]
        exact ih (checked + 1) cap r _ (by omega)

lemma rolesInv_max_name (m L : Nat) (nm : String)
    (h : nm = if m = 0 then "" else get_role_name m) :
    (if m < L then get_role_name L else nm) =
      (if max m L = 0 then "" else get_role_name (max m L)) := by
  by_cases hlt : m < L
  · have e1 : max m L = L := by omega
    rw [if_pos hlt, e1, if_neg (by omega)]
  · have e1 : max m L = m := by omega
    rw [if_neg hlt, e1, h]

lemma rolesInv_emptyRoles : RolesInv emptyRoles := by
  constructor <;> rfl

lemma rolesInv_probeLoop (probe : Nat → Probe) (g : Bool) (ids : List Nat)
    (cap : Nat) (r : Roles) (w : List (Nat × String)) (hcap : 0 < cap)
    (hr : RolesInv r) : RolesInv (probeLoop probe g ids 0 cap r w).1 := by
  rw [probeLoop_take probe g ids 0 cap r w hcap]
  obtain ⟨h1, h2⟩ := hr
  unfold rolesLevels at h1
  simp only [List.map_append, listMax_append] at h1
  constructor
  · rw [foldProbe_level]
    unfold rolesLevels
    rw [foldProbe_project_roles, foldProbe_group_roles]
    cases g <;>
      simp only [if_true, if_false, Bool.false_eq_true, List.append_nil,
        List.map_append, listMax_append] <;> omega
  · rw [foldProbe_name, foldProbe_level]
    exact rolesInv_max_name r.max_role_level _ r.max_role_name h2

lemma rolesInv_directProjects (pms : List (Nat × Nat)) (r : Roles)
    (hr : RolesInv r) : RolesInv (directProjects pms r) := by
  obtain ⟨h1, h2⟩ := hr
  unfold rolesLevels at h1
  simp only [List.map_append, listMax_append] at h1
  constructor
  · rw [directProjects_level]
    unfold rolesLevels
    rw [directProjects_project, directProjects_group]
    simp only [List.map_append, listMax_append]
    omega
  · rw [directProjects_name, directProjects_level]
    exact rolesInv_max_name r.max_role_level _ r.max_role_name h2

/-- C4: every RoleProfile the resolver produces satisfies the invariant:
`max_role_level` is the maximum access level over the accumulated
project and group memberships (0 when none were accumulated),
`max_role_name` is the role name of that level when positive and empty
otherwise; the aggregation of discovered levels is independent of
discovery order; and discovered levels {Developer(30), Owner(50),
Guest(10)} aggregate to `(50, "Owner")`. -/
theorem role_profile_max_invariant :
    (∀ env skip_roles, RolesInv (get_user_roles_optimized env skip_roles).1) ∧
    (∀ env, RolesInv (get_user_roles_fallback env).1) ∧
    (∀ l1 l2 : List Nat, l1.Perm l2 → discoveredMax l1 = discoveredMax l2) ∧
    discoveredMax [30, 50, 10] = (50, "Owner") := by
  have hfall : ∀ env, RolesInv (get_user_roles_fallback env).1 := by
    intro env
    unfold get_user_roles_fallback
    exact rolesInv_probeLoop _ _ _ _ _ _ (by omega) rolesInv_emptyRoles
  refine ⟨?_, hfall, ?_, ?_⟩
  · intro env skip
    unfold get_user_roles_optimized
    cases skip
    · simp only [Bool.false_eq_true, if_false]
      by_cases hu : env.userExists = false
      · rw [if_pos hu]
        exact rolesInv_emptyRoles
      · rw [if_neg hu]
        rcases hup : env.userProjects with _ | pms
        · exact hfall env
        · exact rolesInv_probeLoop _ _ _ _ _ _ (by omega)
            (rolesInv_directProjects _ _ rolesInv_emptyRoles)
    · simp only [if_true]
      exact rolesInv_emptyRoles
  · intro l1 l2 hperm
    rw [discoveredMax_eq, discoveredMax_eq, listMax_perm hperm]
  · decide

/-- Witness for `role_profile_max_invariant`: order independence discharged
on a concrete permutation of the spec's example levels. -/
theorem role_profile_max_invariant_witness :
    discoveredMax [10, 50, 30] = discoveredMax [30, 50, 10] :=
  (role_profile_max_invariant).2.2.1 [10, 50, 30] [30, 50, 10] (by decide)

/-- C9: in a probing loop, a "not a member" probe outcome contributes
nothing to the warning log (it is an expected non-error) and nothing to the
membership lists, every logged warning comes from a genuine per-resource
lookup error, and an erroring resource is merely skipped: all memberships
among the other enumerated resources are still accumulated. -/
theorem probe_not_member_handling (probe : Nat → Probe) (g : Bool)
    (ids : List Nat) (cap : Nat) (r : Roles) (w : List (Nat × String))
    (hcap : 0 < cap) :
    (probeLoop probe g ids 0 cap r w).2 =
      w ++ warnsIn probe (ids.take (cap - 1)) ∧
    (∀ i m, (i, m) ∈ warnsIn probe (ids.take (cap - 1)) → probe i = .err m) ∧
    (∀ i, probe i = Probe.notMember →
      ∀ m, (i, m) ∉ warnsIn probe (ids.take (cap - 1))) ∧
    (g = true → (probeLoop probe g ids 0 cap r w).1.group_roles =
      r.group_roles ++ foundIn probe (ids.take (cap - 1))) ∧
    (g = false → (probeLoop probe g ids 0 cap r w).1.project_roles =
      r.project_roles ++ foundIn probe (ids.take (cap - 1))) := by
  have hmem : ∀ i m, (i, m) ∈ warnsIn probe (ids.take (cap - 1)) → probe i = .err m := by
    intro i m hm
    unfold warnsIn at hm
    rw [List.mem_filterMap] at hm
    obtain ⟨a, _, hfa⟩ := hm
    cases hpa : probe a <;> rw [hpa] at hfa <;> simp at hfa
    obtain ⟨rfl, rfl⟩ := hfa
    exact hpa
  refine ⟨?_, hmem, ?_, ?_, ?_⟩
  · rw [probeLoop_take probe g ids 0 cap r w hcap, foldProbe_warns]
    simp
  · intro i hnm m hm
    have := hmem i m hm
    rw [hnm] at this
    exact Probe.noConfusion this
  · intro hg
    rw [probeLoop_take probe g ids 0 cap r w hcap, foldProbe_group_roles]
    simp [hg]
  · intro hg
    rw [probeLoop_take probe g ids 0 cap r w hcap, foldProbe_project_roles]
    simp [hg]

/-- Witness for `probe_not_member_handling` at a concrete probe. -/
theorem probe_not_member_handling_witness :
    (probeLoop (fun i => if i = 1 then Probe.err "http 500" else Probe.notMember)
        true [1, 2] 0 500 emptyRoles []).2 =
      [] ++ warnsIn (fun i => if i = 1 then Probe.err "http 500" else Probe.notMember)
        ([1, 2].take 499) :=
  (probe_not_member_handling
    (fun i => if i = 1 then Probe.err "http 500" else Probe.notMember)
    true [1, 2] 500 emptyRoles [] (by omega)).1

/-- An instance whose only group has the user as a member at Owner level,
while the direct project-membership listing is unavailable (so the fallback
tier runs). -/
def envC6 : Env :=
  ⟨true, none, [7], [], fun _ => Probe.member 50, fun _ => Probe.notMember⟩

/-- Counterexample to C6 as stated: when the direct listing is unavailable
the fallback tier runs (third conjunct), the single group is within the
500-group cap and the user is an Owner-level member of it, yet the fallback
tier reports no group membership at all and a zero maximum, because it only
probes projects. -/
theorem fallback_ignores_groups_cex :
    envC6.groups = [7] ∧
    envC6.groupProbe 7 = Probe.member 50 ∧
    get_user_roles_optimized envC6 false = get_user_roles_fallback envC6 ∧
    (get_user_roles_fallback envC6).1.group_roles = [] ∧
    (get_user_roles_fallback envC6).1.max_role_level = 0 :=
  ⟨rfl, rfl, rfl, rfl, rfl⟩

/-- C6 (amended): the fallback tier enumerates only the recency-ordered
projects, stopping at the 100-project cap and probing each enumerated
project but the one that reaches the cap (so the first 99); it probes no
groups.  The 500-group enumeration cap belongs to the optimized/direct
tier, which probes the first 499 groups after the direct membership
listing. -/
theorem fallback_tier_scope (env : Env) (pms : List (Nat × Nat))
    (hex : env.userExists = true) (hup : env.userProjects = some pms) :
    (get_user_roles_fallback env).1.project_roles =
      foundIn env.projectProbe (env.projectsByActivity.take 99) ∧
    (get_user_roles_fallback env).1.group_roles = [] ∧
    (get_user_roles_fallback env).1.max_role_level =
      listMax ((foundIn env.projectProbe (env.projectsByActivity.take 99)).map
        (fun m => m.2)) ∧
    (get_user_roles_fallback env).2 =
      warnsIn env.projectProbe (env.projectsByActivity.take 99) ∧
    (get_user_roles_optimized env false).1.group_roles =
      foundIn env.groupProbe (env.groups.take 499) := by
  have h99 : (100 : Nat) - 0 - 1 = 99 := by norm_num
  have h499 : (500 : Nat) - 0 - 1 = 499 := by norm_num
  have hfb := probeLoop_take env.projectProbe false env.projectsByActivity
    0 100 emptyRoles [] (by omega)
  rw [h99] at hfb
  refine ⟨?_, ?_, ?_, ?_, ?_⟩
  · unfold get_user_roles_fallback
    rw [hfb, foldProbe_project_roles]
    simp [emptyRoles]
  · unfold get_user_roles_fallback
    rw [hfb, foldProbe_group_roles]
    simp [emptyRoles]
  · unfold get_user_roles_fallback
    rw [hfb, foldProbe_level]
    simp [emptyRoles]
  · unfold get_user_roles_fallback
    rw [hfb, foldProbe_warns]
    simp [emptyRoles]
  · unfold get_user_roles_optimized
    rw [hex]
    simp only [Bool.false_eq_true, if_false, Bool.true_eq_false]
    rw [hup]
    have hgl := probeLoop_take env.groupProbe true env.groups 0 500
      (directProjects pms emptyRoles) [] (by omega)
    rw [h499] at hgl
    show (probeLoop env.groupProbe true env.groups 0 500
      (directProjects pms emptyRoles) []).1.group_roles = _
    rw [hgl, foldProbe_group_roles, directProjects_group]
    simp [emptyRoles]

/-- An instance below both fallback caps where the user's best role is on a
group (Owner) while their only project membership is Developer. -/
def envC7 : Env :=
  ⟨true, some [(1, 30)], [2], [1], fun _ => Probe.member 50,
    fun i => if i = 1 then Probe.member 30 else Probe.notMember⟩

/-- Counterexample to C7 as stated: an instance with 1 project and 1 group
(both far below the caps) on which the direct tier reports max level 50
(it also probes groups) while the fallback tier reports 30 (it only probes
projects). -/
theorem tier_equivalence_cex :
    envC7.projectsByActivity.length < 100 ∧
    envC7.groups.length < 500 ∧
    (get_user_roles_optimized envC7 false).1.max_role_level = 50 ∧
    (get_user_roles_fallback envC7).1.max_role_level = 30 ∧
    (get_user_roles_optimized envC7 false).1.max_role_level ≠
      (get_user_roles_fallback envC7).1.max_role_level := by
  refine ⟨by decide, by decide, by decide, by decide, by decide⟩

/-- C7 (amended): below the fallback caps, and with the direct
membership listing coherent with per-project probing, the two tiers agree
on the maximum over the user's project memberships; the direct tier's
reported maximum additionally folds in the group memberships it probes, so
the two tiers report the same `max_role_level` exactly when no group
membership exceeds the best project membership. -/
theorem tier_equivalence_amended (env : Env)
    (hex : env.userExists = true)
    (hup : env.userProjects = some (foundIn env.projectProbe env.projectsByActivity))
    (hpcap : env.projectsByActivity.length ≤ 99)
    (hgcap : env.groups.length ≤ 499) :
    (get_user_roles_fallback env).1.max_role_level =
      listMax ((foundIn env.projectProbe env.projectsByActivity).map (fun m => m.2)) ∧
    (get_user_roles_optimized env false).1.max_role_level =
      max (listMax ((foundIn env.projectProbe env.projectsByActivity).map (fun m => m.2)))
        (listMax ((foundIn env.groupProbe env.groups).map (fun m => m.2))) ∧
    (listMax ((foundIn env.groupProbe env.groups).map (fun m => m.2)) ≤
        listMax ((foundIn env.projectProbe env.projectsByActivity).map (fun m => m.2)) →
      (get_user_roles_optimized env false).1.max_role_level =
        (get_user_roles_fallback env).1.max_role_level) := by
  have h99 : (100 : Nat) - 0 - 1 = 99 := by norm_num
  have h499 : (500 : Nat) - 0 - 1 = 499 := by norm_num
  have htp : env.projectsByActivity.take 99 = env.projectsByActivity :=
    List.take_of_length_le hpcap
  have htg : env.groups.take 499 = env.groups :=
    List.take_of_length_le hgcap
  have hfb : (get_user_roles_fallback env).1.max_role_level =
      listMax ((foundIn env.projectProbe env.projectsByActivity).map (fun m => m.2)) := by
    unfold get_user_roles_fallback
    have h := probeLoop_take env.projectProbe false env.projectsByActivity
      0 100 emptyRoles [] (by omega)
    rw [h99, htp] at h
    rw [h, foldProbe_level]
    simp [emptyRoles]
  have hop : (get_user_roles_optimized env false).1.max_role_level =
      max (listMax ((foundIn env.projectProbe env.projectsByActivity).map (fun m => m.2)))
        (listMax ((foundIn env.groupProbe env.groups).map (fun m => m.2))) := by
    unfold get_user_roles_optimized
    rw [hex]
    simp only [Bool.false_eq_true, if_false, Bool.true_eq_false]
    rw [hup]
    have h := probeLoop_take env.groupProbe true env.groups 0 500
      (directProjects (foundIn env.projectProbe env.projectsByActivity) emptyRoles)
      [] (by omega)
    rw [h499, htg] at h
    show (probeLoop env.groupProbe true env.groups 0 500
      (directProjects (foundIn env.projectProbe env.projectsByActivity) emptyRoles)
      []).1.max_role_level = _
    rw [h, foldProbe_level, directProjects_level]
    simp [emptyRoles]
  refine ⟨hfb, hop, fun hle => ?_⟩
  rw [hfb, hop]
  omega

/-- An instance below both caps where the best group role (Reporter) does
not exceed the best project role (Owner). -/
def envC7b : Env :=
  ⟨true, some [(1, 50)], [2], [1], fun _ => Probe.member 20,
    fun i => if i = 1 then Probe.member 50 else Probe.notMember⟩

/-- Witness for `tier_equivalence_amended` at `envC7b`. -/
theorem tier_equivalence_amended_witness :
    (get_user_roles_optimized envC7b false).1.max_role_level =
      (get_user_roles_fallback envC7b).1.max_role_level :=
  (tier_equivalence_amended envC7b rfl (by decide) (by decide) (by decide)).2.2
    (by decide)

/-- Witness for `fallback_tier_scope` at `envC7b`. -/
theorem fallback_tier_scope_witness :
    (get_user_roles_fallback envC7b).1.group_roles = [] ∧
    (get_user_roles_optimized envC7b false).1.group_roles =
      foundIn envC7b.groupProbe (envC7b.groups.take 499) :=
  ⟨(fallback_tier_scope envC7b [(1, 50)] rfl rfl).2.1,
    (fallback_tier_scope envC7b [(1, 50)] rfl rfl).2.2.2.2⟩

/-! ## Checkpointed paged collectors (main.py lines 466-673)

`get_all_projects_with_checkpoints` and `get_all_groups_with_checkpoints`
are the same loop with a different checkpoint interval (every 10 pages for
projects, every 5 for groups), embedded below parameterized by `K`.  The
filesystem is reduced to the two paths the loop touches: the normal
checkpoint file and the emergency checkpoint file.  A page fetch is
`fp page : Except String (List Nat)`, an `.error` being a fatal error (or
retry exhaustion) raised by the fetch; `saveOk page` tells whether the
checkpoint write attempted after accumulating `page` succeeds.  The
inter-page sleeps and the longer pause every 100 pages only pace the crawl
and are not modelled. -/

/-- A normal checkpoint file: `{"last_page": ..., "total_<kind>": ...}`. -/
structure Ckpt where
  last_page : Nat
  total : Nat
deriving DecidableEq

/-- An emergency checkpoint file, which additionally carries the error. -/
structure ECkpt where
  last_page : Nat
  total : Nat
  error : String
deriving DecidableEq

/-- The two checkpoint paths of one collection kind. -/
structure Disk where
  normal : Option Ckpt
  emergency : Option ECkpt
deriving DecidableEq

/-- Outcome of a crawl: normal completion or abort by a fetch error.
`acc` is the accumulated collection, `writes` the trace of successfully
persisted normal checkpoints, `fetches` the number of page fetches
performed, `disk` the final state of the two checkpoint files. -/
inductive CrawlRes where
  | done (acc : List Nat) (writes : List Ckpt) (fetches : Nat) (disk : Disk)
  | aborted (err : String) (acc : List Nat) (writes : List Ckpt) (fetches : Nat)
      (disk : Disk)
deriving DecidableEq

/-- The collection loop: `while consecutive_empty_pages < max_consecutive_empty`
with threshold `th`, empty pages incrementing the counter, nonempty pages
resetting it and extending the accumulator, a checkpoint
`{last_page := page + 1, total := len(acc')}` written every `K` pages (a
failing write is swallowed), the checkpoint file removed on completion, and
a fetch error writing an emergency checkpoint before propagating.  `fuel`
bounds the number of iterations so the loop is a total function; every
theorem below supplies enough fuel. -/
def crawlLoop (fp : Nat → Except String (List Nat)) (K th : Nat)
    (saveOk : Nat → Bool) :
    Nat → Nat → Nat → List Nat → List Ckpt → Nat → Disk → Option CrawlRes
  | 0, _, _, _, _, _, _ => none
  | fuel + 1, page, ec, acc, ws, n, d =>
    if th ≤ ec then some (.done acc ws n { d with normal := none })
    else
      match fp page with
      | .error e =>
        some (.aborted e acc ws n
          { d with emergency := some ⟨page, acc.length, e⟩ })
      | .ok items =>
        if items = [] then
          crawlLoop fp K th saveOk fuel (page + 1) (ec + 1) acc ws (n + 1) d
        else
          crawlLoop fp K th saveOk fuel (page + 1) 0 (acc ++ items)
            (if page % K == 0 && saveOk page then
              ws ++ [⟨page + 1, (acc ++ items).length⟩] else ws)
            (n + 1)
            (if page % K == 0 && saveOk page then
              { d with normal := some ⟨page + 1, (acc ++ items).length⟩ } else d)

/-- Loading the checkpoint at crawl start: `last_page` of the normal file,
page 1 when absent.  The emergency file is never consulted. -/
def startPage (d : Disk) : Nat :=
  match d.normal with
  | some c => c.last_page
  | none => 1

/-- One invocation of the collector against disk state `d`. -/
def crawlRun (fp : Nat → Except String (List Nat)) (K th : Nat)
    (saveOk : Nat → Bool) (fuel : Nat) (d : Disk) : Option CrawlRes :=
  crawlLoop fp K th saveOk fuel (startPage d) 0 [] [] 0 d

/-- Page `page` (1-based) of a static backing collection under
`per_page = pp` with the deterministic ascending-id sort order. -/
def pageOf (es : List Nat) (pp page : Nat) : List Nat :=
  (es.drop ((page - 1) * pp)).take pp

/-- The fetch function of a static, never-failing backing collection. -/
def fpOf (es : List Nat) (pp : Nat) : Nat → Except String (List Nat) :=
  fun page => .ok (pageOf es pp page)

/-- Number of nonempty pages of a collection of `N` entities:
`⌈N / pp⌉`. -/
def numPages (N pp : Nat) : Nat := (N + pp - 1) / pp

lemma crawlLoop_step_done (fp : Nat → Except String (List Nat)) (K th : Nat)
    (saveOk : Nat → Bool) (fuel page ec : Nat) (acc : List Nat) (ws : List Ckpt)
    (n : Nat) (d : Disk) (hec : th ≤ ec) :
    crawlLoop fp K th saveOk (fuel + 1) page ec acc ws n d =
      some (.done acc ws n { d with normal := none }) := by
  simp only [crawlLoop, if_pos hec]

lemma crawlLoop_step_err (fp : Nat → Except String (List Nat)) (K th : Nat)
    (saveOk : Nat → Bool) (fuel page ec : Nat) (acc : List Nat) (ws : List Ckpt)
    (n : Nat) (d : Disk) (e : String) (hec : ¬th ≤ ec) (hfp : fp page = .error e) :
    crawlLoop fp K th saveOk (fuel + 1) page ec acc ws n d =
      some (.aborted e acc ws n
        { d with emergency := some ⟨page, acc.length, e⟩ }) := by
  simp only [crawlLoop, if_neg hec, hfp]

lemma crawlLoop_step_ok (fp : Nat → Except String (List Nat)) (K th : Nat)
    (saveOk : Nat → Bool) (fuel page ec : Nat) (acc : List Nat) (ws : List Ckpt)
    (n : Nat) (d : Disk) (items : List Nat) (hec : ¬th ≤ ec)
    (hfp : fp page = .ok items) :
    crawlLoop fp K th saveOk (fuel + 1) page ec acc ws n d =
      if items = [] then
        crawlLoop fp K th saveOk fuel (page + 1) (ec + 1) acc ws (n + 1) d
      else
        crawlLoop fp K th saveOk fuel (page + 1) 0 (acc ++ items)
          (if page % K == 0 && saveOk page then
            ws ++ [⟨page + 1, (acc ++ items).length⟩] else ws)
          (n + 1)
          (if page % K == 0 && saveOk page then
            { d with normal := some ⟨page + 1, (acc ++ items).length⟩ } else d) := by
  simp only [crawlLoop, if_neg hec, hfp]

lemma pageOf_eq_nil_iff {es : List Nat} {pp page : Nat} (hpp : 0 < pp) :
    pageOf es pp page = [] ↔ es.length ≤ (page - 1) * pp := by
  unfold pageOf
  rw [← List.length_eq_zero, List.length_take, List.length_drop]
  omega

lemma numPages_mul_ge (N pp : Nat) (hpp : 0 < pp) : N ≤ numPages N pp * pp := by
  unfold numPages
  have hdm := Nat.div_add_mod (N + pp - 1) pp
  have hm : (N + pp - 1) % pp < pp := Nat.mod_lt _ hpp
  have hc : (N + pp - 1) / pp * pp = pp * ((N + pp - 1) / pp) := Nat.mul_comm _ _
  omega

lemma le_numPages_iff {N pp page : Nat} (hpp : 0 < pp) (hpage : 1 ≤ page) :
    page ≤ numPages N pp ↔ (page - 1) * pp < N := by
  unfold numPages
  rw [Nat.le_div_iff_mul_le hpp]
  have hsm : page * pp = (page - 1) * pp + pp := by
    obtain ⟨q, rfl⟩ : ∃ q, page = q + 1 := ⟨page - 1, by omega⟩
    simp [Nat.succ_mul]
  omega

lemma crawlLoop_drain_empty (es : List Nat) (pp K th : Nat) (saveOk : Nat → Bool) :
    ∀ j page ec acc ws n d fuel, ec + j = th → j + 1 ≤ fuel →
    (∀ q, page ≤ q → pageOf es pp q = []) →
    crawlLoop (fpOf es pp) K th saveOk fuel page ec acc ws n d =
      some (.done acc ws (n + j) { d with normal := none }) := by
  intro j
  induction j with
  | zero =>
    intro page ec acc ws n d fuel he hf _
    obtain ⟨f, rfl⟩ : ∃ f, fuel = f + 1 := ⟨fuel - 1, by omega⟩
    rw [crawlLoop_step_done _ _ _ _ _ _ _ _ _ _ _ (by omega : th ≤ ec)]
    simp
  | succ j ih =>
    intro page ec acc ws n d fuel he hf hq
    obtain ⟨f, rfl⟩ : ∃ f, fuel = f + 1 := ⟨fuel - 1, by omega⟩
    have hfp : fpOf es pp page = Except.ok [] :=
      congrArg Except.ok (hq page (le_refl page))
    rw [crawlLoop_step_ok _ _ _ _ _ _ _ _ _ _ _ _ (by omega : ¬th ≤ ec) hfp,
      if_pos rfl]
    have := ih (page + 1) (ec + 1) acc ws (n + 1) d f (by omega) (by omega)
      (fun q hqq => hq q (by omega))
    rw [this]
    have hn : n + 1 + j = n + (j + 1) := by omega
    rw [hn]

lemma crawlLoop_main (es : List Nat) (pp K th : Nat) (saveOk : Nat → Bool)
    (hpp : 0 < pp) (hth : 0 < th) :
    ∀ m s acc ws n d fuel, 1 ≤ s → s + m = numPages es.length pp + 1 →
    m + th + 1 ≤ fuel →
    ∃ ws2, crawlLoop (fpOf es pp) K th saveOk fuel s 0 acc ws n d =
      some (.done (acc ++ es.drop ((s - 1) * pp)) (ws ++ ws2) (n + m + th)
        { d with normal := none }) ∧
      ∀ c ∈ ws2, ∃ p, s ≤ p ∧ p ≤ numPages es.length pp ∧ p % K = 0 ∧
        c.last_page = p + 1 := by
  intro m
  induction m with
  | zero =>
    intro s acc ws n d fuel h1 hs hf
    refine ⟨[], ?_, by simp⟩
    have hdrop : es.drop ((s - 1) * pp) = [] := by
      apply List.drop_eq_nil_of_le
      have h2 := numPages_mul_ge es.length pp hpp
      have h3 : numPages es.length pp * pp ≤ (s - 1) * pp :=
        Nat.mul_le_mul_right pp (by omega)
      omega
    rw [hdrop, List.append_nil, List.append_nil]
    have hq : ∀ q, s ≤ q → pageOf es pp q = [] := by
      intro q hsq
      rw [pageOf_eq_nil_iff hpp]
      have h2 := numPages_mul_ge es.length pp hpp
      have h3 : numPages es.length pp * pp ≤ (q - 1) * pp :=
        Nat.mul_le_mul_right pp (by omega)
      omega
    have := crawlLoop_drain_empty es pp K th saveOk th s 0 acc ws n d fuel
      (by omega) (by omega) hq
    rw [this]
    have hn : n + th = n + 0 + th := by omega
    rw [← hn]
  | succ m ih =>
    intro s acc ws n d fuel h1 hs hf
    have hsP : s ≤ numPages es.length pp := by omega
    have hlt : (s - 1) * pp < es.length := (le_numPages_iff hpp h1).mp hsP
    have hne : ¬pageOf es pp s = [] := by
      rw [pageOf_eq_nil_iff hpp]
      omega
    obtain ⟨f, rfl⟩ : ∃ f, fuel = f + 1 := ⟨fuel - 1, by omega⟩
    rw [crawlLoop_step_ok _ _ _ _ _ _ _ _ _ _ _ _ (by omega : ¬th ≤ 0) rfl,
      if_neg hne]
    have hsplit : pageOf es pp s ++ es.drop (s * pp) = es.drop ((s - 1) * pp) := by
      unfold pageOf
      have h2 : s * pp = (s - 1) * pp + pp := by
        obtain ⟨q, rfl⟩ : ∃ q, s = q + 1 := ⟨s - 1, by omega⟩
        simp [Nat.succ_mul]
      have h4 : List.drop pp (List.drop ((s - 1) * pp) es) = List.drop (s * pp) es := by
        rw [List.drop_drop]
        congr 1
        omega
      rw [← h4]
      exact List.take_append_drop pp (es.drop ((s - 1) * pp))
    by_cases hwb : (s % K == 0 && saveOk s) = true
    case neg =>
      rw [if_neg hwb, if_neg hwb]
      obtain ⟨ws2, hrun, hmem⟩ := ih (s + 1) (acc ++ pageOf es pp s) ws (n + 1) d f
        (by omega) (by omega) (by omega)
      refine ⟨ws2, ?_, ?_⟩
      · rw [hrun]
        have hacc : acc ++ pageOf es pp s ++ es.drop ((s + 1 - 1) * pp) =
            acc ++ es.drop ((s - 1) * pp) := by
          rw [List.append_assoc]
          have hidx : s + 1 - 1 = s := by omega
          rw [hidx, hsplit]
        rw [hacc]
        have hn : n + 1 + m + th = n + (m + 1) + th := by omega
        rw [hn]
      · intro c hc
        obtain ⟨p, hp1, hp2, hp3, hp4⟩ := hmem c hc
        exact ⟨p, by omega, hp2, hp3, hp4⟩
    case pos =>
      rw [if_pos hwb, if_pos hwb]
      obtain ⟨ws2, hrun, hmem⟩ := ih (s + 1) (acc ++ pageOf es pp s)
        (ws ++ [⟨s + 1, (acc ++ pageOf es pp s).length⟩]) (n + 1)
        ({ d with normal := some ⟨s + 1, (acc ++ pageOf es pp s).length⟩ }) f
        (by omega) (by omega) (by omega)
      refine ⟨⟨s + 1, (acc ++ pageOf es pp s).length⟩ :: ws2, ?_, ?_⟩
      · rw [hrun]
        have hacc : acc ++ pageOf es pp s ++ es.drop ((s + 1 - 1) * pp) =
            acc ++ es.drop ((s - 1) * pp) := by
          rw [List.append_assoc]
          have hidx : s + 1 - 1 = s := by omega
          rw [hidx, hsplit]
        rw [hacc]
        have hn : n + 1 + m + th = n + (m + 1) + th := by omega
        rw [hn]
        have hws : ws ++ [⟨s + 1, (acc ++ pageOf es pp s).length⟩] ++ ws2 =
            ws ++ (⟨s + 1, (acc ++ pageOf es pp s).length⟩ :: ws2) := by
          rw [List.append_assoc]
          rfl
        rw [hws]
      · intro c hc
        rcases List.mem_cons.mp hc with hceq | hmem2
        · refine ⟨s, le_refl s, hsP, ?_, by rw [hceq]⟩
          simpa using ((Bool.and_eq_true _ _).mp hwb).1
        · obtain ⟨p, hp1, hp2, hp3, hp4⟩ := hmem c hmem2
          exact ⟨p, by omega, hp2, hp3, hp4⟩

/-- C5 (amended): a crawl of a static collection of `N` entities started at
page 1 with no checkpoint terminates — it returns a result for every
sufficient fuel bound, accumulating the whole collection — after exactly
`⌈N / per_page⌉ + empty_threshold` page fetches: the `⌈N / per_page⌉`
nonempty pages followed by `empty_threshold` consecutive empty fetches
(the loop re-fetches until the empty counter reaches the threshold, so one
more fetch than the claimed `⌈N / per_page⌉ + empty_threshold − 1`). -/
theorem crawl_termination_count (es : List Nat) (pp K th : Nat)
    (saveOk : Nat → Bool) (fuel : Nat) (hpp : 0 < pp) (hth : 0 < th)
    (hfuel : numPages es.length pp + th + 1 ≤ fuel) :
    ∃ ws, crawlRun (fpOf es pp) K th saveOk fuel ⟨none, none⟩ =
      some (.done es ws (numPages es.length pp + th) ⟨none, none⟩) := by
  obtain ⟨ws2, hrun, _⟩ := crawlLoop_main es pp K th saveOk hpp hth
    (numPages es.length pp) 1 [] [] 0 ⟨none, none⟩ fuel (by omega) (by omega) hfuel
  refine ⟨ws2, ?_⟩
  unfold crawlRun
  show crawlLoop (fpOf es pp) K th saveOk fuel 1 0 [] [] 0 ⟨none, none⟩ = _
  rw [hrun]
  simp

/-- Counterexample to C5 as stated: one entity fetched with `per_page = 10`
and `empty_threshold = 3` takes 4 page fetches (1 nonempty + 3 empty), but
the claim's formula `⌈N/per_page⌉ + empty_threshold − 1` gives 3. -/
theorem crawl_count_cex :
    crawlRun (fpOf [7] 10) 10 3 (fun _ => true) 10 ⟨none, none⟩ =
      some (.done [7] [] 4 ⟨none, none⟩) ∧
    numPages 1 10 + 3 - 1 = 3 ∧
    (4 : Nat) ≠ numPages 1 10 + 3 - 1 := by
  refine ⟨by decide, by decide, by decide⟩

/-- Witness for `crawl_termination_count`. -/
theorem crawl_termination_count_witness :
    (0 : Nat) < 10 ∧ (0 : Nat) < 3 ∧
    (∃ ws, crawlRun (fpOf [7] 10) 10 3 (fun _ => true) 10 ⟨none, none⟩ =
      some (.done [7] ws (numPages (List.length [7]) 10 + 3) ⟨none, none⟩)) :=
  ⟨by decide, by decide,
    crawl_termination_count [7] 10 10 3 (fun _ => true) 10 (by decide) (by decide)
      (by decide)⟩

/-- C1 (amended): the uninterrupted crawl accumulates the whole collection,
every checkpoint it writes records `last_page = p + 1` for the page `p`
(a multiple of the checkpoint interval) just accumulated, and replaying
from any such checkpoint accumulates exactly the pages from `last_page` on
— the suffix `es.drop ((last_page − 1) * per_page)`.  The replayed run
alone therefore does not reproduce the uninterrupted result (the restarted
process starts with an empty accumulator, see the counterexample); it is
its union with the items accumulated before the checkpoint (the matching
prefix) that equals the uninterrupted run. -/
theorem checkpoint_resume_union (es : List Nat) (pp K th : Nat)
    (saveOk : Nat → Bool) (fuel : Nat) (hpp : 0 < pp) (hth : 0 < th)
    (hfuel : numPages es.length pp + th + 1 ≤ fuel)
    (acc : List Nat) (ws : List Ckpt) (n : Nat) (dfin : Disk) (c : Ckpt)
    (hrun : crawlRun (fpOf es pp) K th saveOk fuel ⟨none, none⟩ =
      some (.done acc ws n dfin))
    (hc : c ∈ ws) :
    acc = es ∧
    ∃ ws2 n2 d2,
      crawlRun (fpOf es pp) K th saveOk fuel ⟨some c, none⟩ =
        some (.done (es.drop ((c.last_page - 1) * pp)) ws2 n2 d2) ∧
      es.take ((c.last_page - 1) * pp) ++ es.drop ((c.last_page - 1) * pp) = es := by
  obtain ⟨wsA, hrunA, hmemA⟩ := crawlLoop_main es pp K th saveOk hpp hth
    (numPages es.length pp) 1 [] [] 0 ⟨none, none⟩ fuel (by omega) (by omega) hfuel
  unfold crawlRun at hrun
  rw [show startPage ⟨none, none⟩ = 1 from rfl] at hrun
  rw [hrunA] at hrun
  simp only [Option.some.injEq, CrawlRes.done.injEq] at hrun
  obtain ⟨hacc, hws, _, _⟩ := hrun
  have haccE : acc = es := by rw [← hacc]; simp
  have hcA : c ∈ wsA := by
    rw [← hws] at hc
    simpa using hc
  obtain ⟨p, hp1, hp2, hp3, hp4⟩ := hmemA c hcA
  obtain ⟨wsB, hrunB, _⟩ := crawlLoop_main es pp K th saveOk hpp hth
    (numPages es.length pp - p) (p + 1) [] [] 0 ⟨some c, none⟩ fuel
    (by omega) (by omega) (by omega)
  refine ⟨haccE, [] ++ wsB, 0 + (numPages es.length pp - p) + th,
    { (⟨some c, none⟩ : Disk) with normal := none }, ?_, List.take_append_drop _ _⟩
  unfold crawlRun
  show crawlLoop (fpOf es pp) K th saveOk fuel c.last_page 0 [] [] 0
    ⟨some c, none⟩ = _
  rw [hp4, hrunB]
  simp

/-- The backing collection of the C1 counterexample and witness: ids 1-10
fetched with `per_page = 1` and checkpoint interval 10. -/
def es10 : List Nat := [1, 2, 3, 4, 5, 6, 7, 8, 9, 10]

/-- Counterexample to C1 as stated: the uninterrupted run accumulates ids
1-10 and writes one checkpoint (`last_page = 11`, after page 10), but
replaying from that checkpoint yields the empty collection — not a set of
ids equal to the uninterrupted run's, because the checkpoint file stores
only the page number, not the previously accumulated items. -/
theorem checkpoint_resume_cex :
    crawlRun (fpOf es10 1) 10 3 (fun _ => true) 20 ⟨none, none⟩ =
      some (.done es10 [⟨11, 10⟩] 13 ⟨none, none⟩) ∧
    crawlRun (fpOf es10 1) 10 3 (fun _ => true) 20 ⟨some ⟨11, 10⟩, none⟩ =
      some (.done [] [] 3 ⟨none, none⟩) ∧
    ([] : List Nat).toFinset ≠ es10.toFinset := by
  refine ⟨by decide, by decide, by decide⟩

/-- Witness for `checkpoint_resume_union` on `es10`. -/
theorem checkpoint_resume_union_witness :
    es10 = es10 ∧
    ∃ ws2 n2 d2,
      crawlRun (fpOf es10 1) 10 3 (fun _ => true) 20 ⟨some ⟨11, 10⟩, none⟩ =
        some (.done (es10.drop (((⟨11, 10⟩ : Ckpt).last_page - 1) * 1)) ws2 n2 d2) ∧
      es10.take (((⟨11, 10⟩ : Ckpt).last_page - 1) * 1) ++
        es10.drop (((⟨11, 10⟩ : Ckpt).last_page - 1) * 1) = es10 :=
  checkpoint_resume_union es10 1 10 3 (fun _ => true) 20 (by decide) (by decide)
    (by decide) es10 [⟨11, 10⟩] 13 ⟨none, none⟩ ⟨11, 10⟩ (by decide) (by decide)

lemma crawlLoop_done_disk (fp : Nat → Except String (List Nat)) (K th : Nat)
    (saveOk : Nat → Bool) :
    ∀ fuel page ec acc ws n d acc' ws' n' d',
      crawlLoop fp K th saveOk fuel page ec acc ws n d =
        some (.done acc' ws' n' d') →
      d'.normal = none ∧ d'.emergency = d.emergency := by
  intro fuel
  induction fuel with
  | zero =>
    intro page ec acc ws n d acc' ws' n' d' h
    simp [crawlLoop] at h
  | succ f ih =>
    intro page ec acc ws n d acc' ws' n' d' h
    by_cases hec : th ≤ ec
    · rw [crawlLoop_step_done _ _ _ _ _ _ _ _ _ _ _ hec] at h
      simp only [Option.some.injEq, CrawlRes.done.injEq] at h
      obtain ⟨_, _, _, hd⟩ := h
      rw [← hd]
      exact ⟨rfl, rfl⟩
    · cases hfp : fp page with
      | error e =>
        rw [crawlLoop_step_err _ _ _ _ _ _ _ _ _ _ _ _ hec hfp] at h
        simp at h
      | ok items =>
        rw [crawlLoop_step_ok _ _ _ _ _ _ _ _ _ _ _ _ hec hfp] at h
        by_cases hit : items = []
        · rw [if_pos hit] at h
          exact ih _ _ _ _ _ _ _ _ _ _ h
        · rw [if_neg hit] at h
          have hrec := ih _ _ _ _ _ _ _ _ _ _ h
          refine ⟨hrec.1, ?_⟩
          rw [hrec.2]
          by_cases hwb : (page % K == 0 && saveOk page) = true
          · rw [if_pos hwb]
          · rw [if_neg hwb]

lemma crawlLoop_aborted_spec (fp : Nat → Except String (List Nat)) (K th : Nat)
    (saveOk : Nat → Bool) :
    ∀ fuel page ec acc ws n d e acc' ws' n' d',
      crawlLoop fp K th saveOk fuel page ec acc ws n d =
        some (.aborted e acc' ws' n' d') →
      ∃ p a, fp p = .error e ∧ d'.emergency = some ⟨p, a, e⟩ := by
  intro fuel
  induction fuel with
  | zero =>
    intro page ec acc ws n d e acc' ws' n' d' h
    simp [crawlLoop] at h
  | succ f ih =>
    intro page ec acc ws n d e acc' ws' n' d' h
    by_cases hec : th ≤ ec
    · rw [crawlLoop_step_done _ _ _ _ _ _ _ _ _ _ _ hec] at h
      simp at h
    · cases hfp : fp page with
      | error e0 =>
        rw [crawlLoop_step_err _ _ _ _ _ _ _ _ _ _ _ _ hec hfp] at h
        simp only [Option.some.injEq, CrawlRes.aborted.injEq] at h
        obtain ⟨he, _, _, _, hd⟩ := h
        subst he
        exact ⟨page, acc.length, hfp, by rw [← hd]⟩
      | ok items =>
        rw [crawlLoop_step_ok _ _ _ _ _ _ _ _ _ _ _ _ hec hfp] at h
        by_cases hit : items = []
        · rw [if_pos hit] at h
          exact ih _ _ _ _ _ _ _ _ _ _ _ h
        · rw [if_neg hit] at h
          exact ih _ _ _ _ _ _ _ _ _ _ _ h

/-- C8: a crawl that completes successfully removes the normal checkpoint
file and leaves the emergency path untouched (so a run started with no
emergency file leaves no checkpoint file at all); a crawl aborted by a
fetch error writes the one emergency checkpoint, whose error field is the
propagated error — non-empty whenever fetch errors carry a non-empty
message — at the page that failed, and the error propagates in the result;
resumption reads only the normal path, never the emergency one. -/
theorem crawl_checkpoint_files (fp : Nat → Except String (List Nat))
    (K th : Nat) (saveOk : Nat → Bool) (fuel : Nat) (d : Disk)
    (herr : ∀ p e, fp p = .error e → e ≠ "") :
    (∀ acc ws n d', crawlRun fp K th saveOk fuel d = some (.done acc ws n d') →
      d'.normal = none ∧ d'.emergency = d.emergency) ∧
    (∀ e acc ws n d',
      crawlRun fp K th saveOk fuel d = some (.aborted e acc ws n d') →
      ∃ p a, fp p = .error e ∧ d'.emergency = some ⟨p, a, e⟩ ∧ e ≠ "") ∧
    (∀ nf e1 e2, startPage ⟨nf, e1⟩ = startPage ⟨nf, e2⟩) := by
  refine ⟨?_, ?_, ?_⟩
  · intro acc ws n d' h
    unfold crawlRun at h
    exact crawlLoop_done_disk fp K th saveOk fuel _ _ _ _ _ _ _ _ _ _ h
  · intro e acc ws n d' h
    unfold crawlRun at h
    obtain ⟨p, a, hfp, hem⟩ :=
      crawlLoop_aborted_spec fp K th saveOk fuel _ _ _ _ _ _ _ _ _ _ _ h
    exact ⟨p, a, hfp, hem, herr p e hfp⟩
  · intro nf e1 e2
    rfl

/-- The fetch function of the C8/C10 abort witnesses: page 1 holds one
entity, page 2 raises a fatal error. -/
def fpC8 : Nat → Except String (List Nat) :=
  fun p => if p = 2 then .error "boom" else .ok (pageOf [5] 1 p)

/-- Witness for `crawl_checkpoint_files`: a clean run of a one-entity
collection, and the aborted run of `fpC8`. -/
theorem crawl_checkpoint_files_witness :
    ((⟨none, none⟩ : Disk).normal = none ∧
      (⟨none, none⟩ : Disk).emergency = (⟨none, none⟩ : Disk).emergency) ∧
    (∃ p a, fpC8 p = .error "boom" ∧
      (⟨none, some ⟨2, 1, "boom"⟩⟩ : Disk).emergency = some ⟨p, a, "boom"⟩ ∧
      "boom" ≠ "") := by
  have herrOk : ∀ (p : Nat) (e : String), fpOf [5] 1 p = .error e → e ≠ "" :=
    fun p e h => Except.noConfusion h
  have herrC8 : ∀ p e, fpC8 p = .error e → e ≠ "" := by
    intro p e h
    unfold fpC8 at h
    by_cases hp : p = 2
    · rw [if_pos hp] at h
      injection h with h1
      rw [← h1]
      decide
    · rw [if_neg hp] at h
      exact Except.noConfusion h
  constructor
  · exact (crawl_checkpoint_files (fpOf [5] 1) 10 3 (fun _ => true) 10
      ⟨none, none⟩ herrOk).1 [5] [] 4 ⟨none, none⟩ (by decide)
  · exact (crawl_checkpoint_files fpC8 10 3 (fun _ => true) 10
      ⟨none, none⟩ herrC8).2.1 "boom" [5] [] 1 ⟨none, some ⟨2, 1, "boom"⟩⟩
      (by decide)

/-- Projection of a crawl result onto what the caller observes: the
propagated error (if any), the accumulated collection, and the number of
page fetches — everything except the checkpoint files. -/
def crawlObs : CrawlRes → Option String × List Nat × Nat
  | .done acc _ n _ => (none, acc, n)
  | .aborted e acc _ n _ => (some e, acc, n)

lemma crawlLoop_obs_saveOk (fp : Nat → Except String (List Nat)) (K th : Nat)
    (s1 s2 : Nat → Bool) :
    ∀ fuel page ec acc ws1 ws2 n d1 d2,
      (crawlLoop fp K th s1 fuel page ec acc ws1 n d1).map crawlObs =
        (crawlLoop fp K th s2 fuel page ec acc ws2 n d2).map crawlObs := by
  intro fuel
  induction fuel with
  | zero =>
    intro page ec acc ws1 ws2 n d1 d2
    simp [crawlLoop]
  | succ f ih =>
    intro page ec acc ws1 ws2 n d1 d2
    by_cases hec : th ≤ ec
    · rw [crawlLoop_step_done fp K th s1 _ _ _ _ _ _ _ hec,
        crawlLoop_step_done fp K th s2 _ _ _ _ _ _ _ hec]
      simp [crawlObs]
    · cases hfp : fp page with
      | error e =>
        rw [crawlLoop_step_err fp K th s1 _ _ _ _ _ _ _ _ hec hfp,
          crawlLoop_step_err fp K th s2 _ _ _ _ _ _ _ _ hec hfp]
        simp [crawlObs]
      | ok items =>
        rw [crawlLoop_step_ok fp K th s1 _ _ _ _ _ _ _ _ hec hfp,
          crawlLoop_step_ok fp K th s2 _ _ _ _ _ _ _ _ hec hfp]
        by_cases hit : items = []
        · rw [if_pos hit, if_pos hit]
          exact ih _ _ _ _ _ _ _ _
        · rw [if_neg hit, if_neg hit]
          exact ih _ _ _ _ _ _ _ _

/-- C10: whether the periodic checkpoint writes succeed or fail has no
effect on what the crawl returns — propagated error, accumulated
collection, and fetch count are identical under any two save-success
patterns (a failing save is swallowed at the write site; in the source it
only prints a warning), and a crawl aborts only with an error raised by a
page fetch itself. -/
theorem checkpoint_save_failure_nonfatal (fp : Nat → Except String (List Nat))
    (K th : Nat) (s1 s2 : Nat → Bool) (fuel : Nat) (d : Disk) :
    (crawlRun fp K th s1 fuel d).map crawlObs =
      (crawlRun fp K th s2 fuel d).map crawlObs ∧
    (∀ e acc ws n d', crawlRun fp K th s1 fuel d = some (.aborted e acc ws n d') →
      ∃ p, fp p = .error e) := by
  constructor
  · unfold crawlRun
    exact crawlLoop_obs_saveOk fp K th s1 s2 fuel _ _ _ _ _ _ _ _
  · intro e acc ws n d' h
    unfold crawlRun at h
    obtain ⟨p, _, hfp, _⟩ :=
      crawlLoop_aborted_spec fp K th s1 fuel _ _ _ _ _ _ _ _ _ _ _ h
    exact ⟨p, hfp⟩

/-- Witness for `checkpoint_save_failure_nonfatal`: all-succeeding versus
all-failing checkpoint saves over `es10`, and the abort case of `fpC8`. -/
theorem checkpoint_save_failure_nonfatal_witness :
    (crawlRun (fpOf es10 1) 10 3 (fun _ => true) 20 ⟨none, none⟩).map crawlObs =
      (crawlRun (fpOf es10 1) 10 3 (fun _ => false) 20 ⟨none, none⟩).map crawlObs ∧
    (∃ p, fpC8 p = .error "boom") := by
  constructor
  · exact (checkpoint_save_failure_nonfatal (fpOf es10 1) 10 3 (fun _ => true)
      (fun _ => false) 20 ⟨none, none⟩).1
  · exact (checkpoint_save_failure_nonfatal fpC8 10 3 (fun _ => true)
      (fun _ => true) 10 ⟨none, none⟩).2 "boom" [5] [] 1
      ⟨none, some ⟨2, 1, "boom"⟩⟩ (by decide)
